import Mathlib

/-!
# Doggo motor-control core: serial ingestion, telemetry store, leg controller

A shallow embedding of `src/main.cpp`:

* `ODrive`, `ODrive.Axis`    : the telemetry store `odrv0` (lines 40-49);
* `parsePositionMsg`         : the decode-and-store step (lines 268-302);
* `serialByte`, `ingest`     : the body of the inner `while (odrv0Serial.available())`
                               loop of `SerialThread` (lines 220-251), one received byte at a time;
* `positionControlCycle`     : one pass of the `PositionControlThread` loop (lines 153-187);
* `Sys`, `coopStep`, `runCoop`: the two threads that share `odrv0`, statement by statement,
                               under the cooperative scheduler set up by `chSetup`.

`ODriveArduino::ParseDualPosition` is a library routine whose text is not part of
`main.cpp`; it is a parameter (`Decoder`) of everything that calls it.
Debug printing and the `micros()` timers do not influence any modelled variable and
are left out; the branches selected by `#define DEBUG` are kept.
-/

namespace Doggo

/-- A received character, as its numeric code. -/
abbrev Byte := Nat

/-- The stop character `'\n'` (line 240). -/
def NEWLINE : Byte := 10

/-- The constant `const int BUFFER_SIZE = 32;` (line 208). -/
def BUFFER_SIZE : Int := 32

/-- The flag `#define DEBUG` (line 23): the debug branches are compiled in. -/
def DEBUG : Bool := true

/-! ## Telemetry store -/

/-- The struct `ODrive::Axis` (lines 41-47), over a carrier `F` of readings. -/
structure ODrive.Axis (F : Type) where
  pos_estimate : F
  ENCODER_OFFSET : F
  abs_pos_estimate : F
deriving DecidableEq, Repr

/-- The struct `ODrive` (lines 40-49). -/
structure ODrive (F : Type) where
  axis0 : ODrive.Axis F
  axis1 : ODrive.Axis F
deriving DecidableEq, Repr

/-- Default member initialisers of `Axis` (lines 42-46):
`pos_estimate = 0`, `ENCODER_OFFSET = 0`, `abs_pos_estimate = pos_estimate + ENCODER_OFFSET`. -/
def ODrive.Axis.init {F : Type} [Zero F] [Add F] : ODrive.Axis F :=
  let pos_estimate : F := 0
  let ENCODER_OFFSET : F := 0
  { pos_estimate := pos_estimate
    ENCODER_OFFSET := ENCODER_OFFSET
    abs_pos_estimate := pos_estimate + ENCODER_OFFSET }

/-- The global `odrv0` as constructed at start-up (line 49). -/
def ODrive.init {F : Type} [Zero F] [Add F] : ODrive F :=
  { axis0 := ODrive.Axis.init, axis1 := ODrive.Axis.init }

/-- Signature of `ODriveArduino::ParseDualPosition(msg, len, m0, m1)`:
from the buffer and the length it yields the `int` result and the two out-parameters. -/
abbrev Decoder (F : Type) := List Byte → Int → Int × F × F

/-- The function `parsePositionMsg` (lines 268-302) acting on the store `odrv0`. -/
def parsePositionMsg {F : Type} [Add F] (P : Decoder F) (odrv0 : ODrive F)
    (msg : List Byte) (len : Int) : ODrive F :=
  let r := P msg len
  let result := r.1
  let m0 := r.2.1
  let m1 := r.2.2
  if result = 1 then
    -- Update raw counts (lines 283-284)
    let a0 := { odrv0.axis0 with pos_estimate := m0 }
    let a1 := { odrv0.axis1 with pos_estimate := m1 }
    -- Update absolute positions (lines 288-289)
    let a0 := { a0 with abs_pos_estimate := m0 + a0.ENCODER_OFFSET }
    let a1 := { a1 with abs_pos_estimate := m1 + a1.ENCODER_OFFSET }
    { axis0 := a0, axis1 := a1 }
  else
    odrv0

/-- The store after a sequence of `parsePositionMsg` calls, one per `(msg, len)` pair. -/
def parseAll {F : Type} [Add F] (P : Decoder F) (odrv0 : ODrive F)
    (calls : List (List Byte × Int)) : ODrive F :=
  calls.foldl (fun o c => parsePositionMsg P o c.1 c.2) odrv0

/-! ## Serial ingestion -/

/-- What the ingestion loop does to its buffer, in program order. -/
inductive Event where
  /-- The statement `msg_idx = 0` of the overflow branch (line 232). -/
  | reset : Event
  /-- The statement `msg[msg_idx++] = c` (line 237): index written and value. -/
  | write (idx : Int) (c : Byte) : Event
  /-- The call `parsePositionMsg(msg, msg_idx)` (line 241): buffer and length passed. -/
  | decode (msg : List Byte) (len : Int) : Event
deriving DecidableEq, Repr

/-- Local state of `SerialThread` together with the store it updates. -/
structure SerialState (F : Type) where
  /-- The array `char msg[BUFFER_SIZE]`. -/
  msg : List Byte
  /-- The cursor `int msg_idx`. -/
  msg_idx : Int
  /-- The global `odrv0`. -/
  odrv0 : ODrive F
  /-- The events so far, oldest first. -/
  trace : List Event

/-- State on entry to the loop: `msg` holds whatever the stack held (`junk`),
`msg_idx = 0` (line 210). -/
def SerialState.start {F : Type} (junk : List Byte) (odrv0 : ODrive F) : SerialState F :=
  { msg := junk, msg_idx := 0, odrv0 := odrv0, trace := [] }

/-- Body of `while (odrv0Serial.available())` (lines 220-251) for the byte `c`
returned by `odrv0Serial.read()`. -/
def serialByte {F : Type} [Add F] (P : Decoder F) (s : SerialState F) (c : Byte) :
    SerialState F :=
  -- lines 228-233
  let s1 : SerialState F :=
    if s.msg_idx ≥ BUFFER_SIZE then
      { s with msg_idx := 0, trace := s.trace ++ [Event.reset] }
    else s
  -- line 237
  let s2 : SerialState F :=
    { s1 with msg := s1.msg.set s1.msg_idx.toNat c
              msg_idx := s1.msg_idx + 1
              trace := s1.trace ++ [Event.write s1.msg_idx c] }
  -- lines 240-250
  if c = NEWLINE then
    { s2 with odrv0 := parsePositionMsg P s2.odrv0 s2.msg s2.msg_idx
              msg_idx := 0
              trace := s2.trace ++ [Event.decode s2.msg s2.msg_idx] }
  else s2

/-- The loop run over the bytes the serial port delivers, in order. -/
def ingest {F : Type} [Add F] (P : Decoder F) (s : SerialState F) (bytes : List Byte) :
    SerialState F :=
  bytes.foldl (serialByte P) s

/-- Number of overflow resets recorded in a trace. -/
def resetCount (t : List Event) : Nat :=
  t.count Event.reset

/-- The `parsePositionMsg` calls recorded in a trace: the first `len` bytes of the
buffer passed, and `len`. -/
def decodeCalls : List Event → List (List Byte × Int)
  | [] => []
  | Event.decode msg len :: t => (msg.take len.toNat, len) :: decodeCalls t
  | _ :: t => decodeCalls t

/-- Every write recorded in a trace is at an index inside `msg[0..31]`. -/
def WritesInBounds (t : List Event) : Prop :=
  ∀ i c, Event.write i c ∈ t → 0 ≤ i ∧ i ≤ 31

/-! ## Leg controller -/

/-- The struct `LegGain` (lines 61-67), over exact rationals. -/
structure LegGain where
  Kp_theta : ℚ
  Kd_theta : ℚ
  Kp_gamma : ℚ
  Kd_gamma : ℚ

/-- The locals of one pass of the `PositionControlThread` loop, and the
arguments of each `SetDualCurrent` call it makes. -/
structure ControlCycle where
  alpha : ℚ
  beta : ℚ
  theta : ℚ
  gamma : ℚ
  theta_sp : ℚ
  gamma_sp : ℚ
  tau_theta : ℚ
  tau_gamma : ℚ
  tau_alpha : ℚ
  tau_beta : ℚ
  sent : List (ℚ × ℚ)

/-- The kinematic transform of lines 158-159. -/
def legTransform (alpha beta : ℚ) : ℚ × ℚ :=
  (alpha / 2.0 + beta / 2.0, beta / 2.0 - alpha / 2.0)

/-- The map of lines 175-176 from `(tau_theta, tau_gamma)` to `(tau_alpha, tau_beta)`. -/
def legInverse (t g : ℚ) : ℚ × ℚ :=
  (t * 0.5 - g * 0.5, t * 0.5 + g * 0.5)

/-- One pass of the loop body of `PositionControlThread` (lines 153-187),
in exact arithmetic. -/
def positionControlCycle (odrv0 : ODrive ℚ) (leg0 : LegGain) : ControlCycle :=
  let alpha := odrv0.axis0.abs_pos_estimate
  let beta := odrv0.axis1.abs_pos_estimate
  let theta := (legTransform alpha beta).1
  let gamma := (legTransform alpha beta).2
  let theta_sp : ℚ := 0
  let gamma_sp : ℚ := 0
  let p_term_theta := leg0.Kp_theta * (theta_sp - theta)
  let d_term_theta := leg0.Kd_theta * 0
  let p_term_gamma := leg0.Kp_gamma * (gamma_sp - gamma)
  let d_term_gamma := leg0.Kd_gamma * 0
  let tau_theta := p_term_theta + d_term_theta
  let tau_gamma := p_term_gamma + d_term_gamma
  let tau_alpha := (legInverse tau_theta tau_gamma).1
  let tau_beta := (legInverse tau_theta tau_gamma).2
  -- line 177 is commented out; lines 179-185 send zeros when DEBUG is defined
  let sent : List (ℚ × ℚ) := if DEBUG then [(0.0, 0.0)] else []
  { alpha := alpha, beta := beta, theta := theta, gamma := gamma
    theta_sp := theta_sp, gamma_sp := gamma_sp
    tau_theta := tau_theta, tau_gamma := tau_gamma
    tau_alpha := tau_alpha, tau_beta := tau_beta, sent := sent }

/-! ## Auxiliary definitions for the statements -/

/-- The absolute position of both axes is the raw position plus the offset. -/
def AbsConsistent {F : Type} [Add F] (o : ODrive F) : Prop :=
  o.axis0.abs_pos_estimate = o.axis0.pos_estimate + o.axis0.ENCODER_OFFSET ∧
  o.axis1.abs_pos_estimate = o.axis1.pos_estimate + o.axis1.ENCODER_OFFSET

/-- The cursor is within `0..32` and every recorded write was in bounds. -/
def CursorInv {F : Type} (s : SerialState F) : Prop :=
  0 ≤ s.msg_idx ∧ s.msg_idx ≤ 32 ∧ WritesInBounds s.trace

/-- The writes made by storing `w` at consecutive indices from `k` on. -/
def writesFrom : Nat → List Byte → List Event
  | _, [] => []
  | k, c :: cs => Event.write (k : Int) c :: writesFrom (k + 1) cs

/-- A stand-in for `ParseDualPosition`, used to run the model on concrete input:
it accepts exactly the three-byte frames `a b '\n'` and yields `(a, b)`. -/
def exampleDecoder : Decoder Int := fun msg len =>
  if len = 3 then (1, (msg.getD 0 0 : Int), (msg.getD 1 0 : Int)) else (-1, 0, 0)

/-- Default member initialisers of `LegGain` (lines 62-66): the value of the global
`leg0`, which no statement of `main.cpp` assigns. -/
def LegGain.init : LegGain :=
  { Kp_theta := 0, Kd_theta := 0, Kp_gamma := 0, Kd_gamma := 0 }

/-! ## The two threads under the scheduler

`chSetup` creates no thread unless `CH_CFG_TIME_QUANTUM` is zero (lines 308-313) and
creates every thread at `NORMALPRIO` (lines 319-337), so the processor changes hands
only where the running thread gives it up. Each thread is the list of its statements
that touch the store `odrv0` or may give up the processor; a schedule names, tick by
tick, the thread the scheduler would like to run. -/

/-- The two threads that share `odrv0`. -/
inductive Tid where
  | serial : Tid
  | control : Tid
deriving DecidableEq, Repr

/-- Statements of `SerialThread` (through `parsePositionMsg`). -/
inductive WAct (F : Type) where
  /-- The statement `odrv0.axis0.pos_estimate = m0` (line 283). -/
  | setPos0 (m0 : F) : WAct F
  /-- The statement `odrv0.axis1.pos_estimate = m1` (line 284). -/
  | setPos1 (m1 : F) : WAct F
  /-- The statement `odrv0.axis0.abs_pos_estimate = m0 + odrv0.axis0.ENCODER_OFFSET` (line 288). -/
  | setAbs0 (m0 : F) : WAct F
  /-- The statement `odrv0.axis1.abs_pos_estimate = m1 + odrv0.axis1.ENCODER_OFFSET` (line 289). -/
  | setAbs1 (m1 : F) : WAct F
  /-- A point where the thread may give up the processor: `chThdYield()` (line 256)
  and, to be on the safe side, every call into a library (serial printing,
  `ParseDualPosition`). -/
  | yield : WAct F
deriving DecidableEq, Repr

/-- Statements of `PositionControlThread`. -/
inductive RAct where
  /-- The statement `alpha = odrv0.axis0.abs_pos_estimate` (line 155). -/
  | readAlpha : RAct
  /-- The statement `beta = odrv0.axis1.abs_pos_estimate` (line 156). -/
  | readBeta : RAct
  /-- A point where the thread may give up the processor:
  `chThdSleepMicroseconds(10000)` (line 187) and, to be on the safe side, the library
  calls of lines 183-184. -/
  | yield : RAct
deriving DecidableEq, Repr

/-- Effect of one `SerialThread` statement on the store. -/
def WAct.store {F : Type} [Add F] (a : WAct F) (o : ODrive F) : ODrive F :=
  match a with
  | WAct.setPos0 m0 => { o with axis0 := { o.axis0 with pos_estimate := m0 } }
  | WAct.setPos1 m1 => { o with axis1 := { o.axis1 with pos_estimate := m1 } }
  | WAct.setAbs0 m0 =>
    { o with axis0 := { o.axis0 with abs_pos_estimate := m0 + o.axis0.ENCODER_OFFSET } }
  | WAct.setAbs1 m1 =>
    { o with axis1 := { o.axis1 with abs_pos_estimate := m1 + o.axis1.ENCODER_OFFSET } }
  | WAct.yield => o

/-- Whether a `SerialThread` statement keeps the processor. -/
def WAct.keeps {F : Type} : WAct F → Bool
  | WAct.yield => false
  | _ => true

/-- The statements of one call `parsePositionMsg(msg, len)` (lines 268-302):
printing and the library call (271-279), then either the four assignments (283-289)
and the print of line 292, or the print of line 299. -/
def parseActs {F : Type} (P : Decoder F) (msg : List Byte) (len : Int) : List (WAct F) :=
  let r := P msg len
  let result := r.1
  let m0 := r.2.1
  let m1 := r.2.2
  if result = 1 then
    [WAct.yield, WAct.setPos0 m0, WAct.setPos1 m1, WAct.setAbs0 m0, WAct.setAbs1 m1,
      WAct.yield]
  else
    [WAct.yield, WAct.yield]

/-- What `SerialThread` does that matters to the store, in program order. -/
inductive SerialEvent where
  /-- A call `parsePositionMsg(msg, len)` (line 241). -/
  | parse (msg : List Byte) (len : Int) : SerialEvent
  /-- The call `chThdYield()` that ends a poll (line 256). -/
  | pollEnd : SerialEvent
deriving DecidableEq, Repr

/-- The statements of `SerialThread` for a run of events. -/
def serialActs {F : Type} (P : Decoder F) : List SerialEvent → List (WAct F)
  | [] => []
  | SerialEvent.parse msg len :: es => parseActs P msg len ++ serialActs P es
  | SerialEvent.pollEnd :: es => WAct.yield :: serialActs P es

/-- The `parsePositionMsg` calls among the events. -/
def callsOf : List SerialEvent → List (List Byte × Int)
  | [] => []
  | SerialEvent.parse msg len :: es => (msg, len) :: callsOf es
  | SerialEvent.pollEnd :: es => callsOf es

/-- The statements of `n` passes of the `PositionControlThread` loop (lines 153-188). -/
def controlActs : Nat → List RAct
  | 0 => []
  | n + 1 => [RAct.readAlpha, RAct.readBeta, RAct.yield, RAct.yield] ++ controlActs n

/-- The two threads and what they share. -/
structure Sys (F : Type) where
  /-- The global `odrv0`. -/
  odrv0 : ODrive F
  /-- What `SerialThread` has still to execute. -/
  serial : List (WAct F)
  /-- What `PositionControlThread` has still to execute. -/
  control : List RAct
  /-- The local `alpha` of `PositionControlThread`. -/
  alpha : F
  /-- The pairs `(alpha, beta)` read so far, one per control cycle, oldest first. -/
  reads : List (F × F)
  /-- The thread that holds the processor, if one does. -/
  running : Option Tid

/-- The system before either thread has run. -/
def Sys.start {F : Type} (odrv0 : ODrive F) (alpha : F) (serial : List (WAct F))
    (control : List RAct) : Sys F :=
  { odrv0 := odrv0, serial := serial, control := control, alpha := alpha
    reads := [], running := none }

/-- Thread `t` executes its next statement. -/
def Sys.exec {F : Type} [Add F] (s : Sys F) (t : Tid) : Sys F :=
  match t with
  | Tid.serial =>
    match s.serial with
    | [] => s
    | a :: rest =>
      { s with odrv0 := a.store s.odrv0, serial := rest
               running := if a.keeps then some Tid.serial else none }
  | Tid.control =>
    match s.control with
    | [] => s
    | RAct.readAlpha :: rest =>
      { s with alpha := s.odrv0.axis0.abs_pos_estimate, control := rest
               running := some Tid.control }
    | RAct.readBeta :: rest =>
      { s with reads := s.reads ++ [(s.alpha, s.odrv0.axis1.abs_pos_estimate)]
               control := rest, running := some Tid.control }
    | RAct.yield :: rest => { s with control := rest, running := none }

/-- One tick of the cooperative scheduler: the thread holding the processor goes on;
the scheduler's choice `t` counts only when no thread holds it. -/
def coopStep {F : Type} [Add F] (s : Sys F) (t : Tid) : Sys F :=
  s.exec (s.running.getD t)

/-- A run under the cooperative scheduler, for a schedule `sched`. -/
def runCoop {F : Type} [Add F] (sched : List Tid) (s : Sys F) : Sys F :=
  sched.foldl coopStep s

/-- A run in which the scheduler may switch threads at every tick (not what
`chSetup` sets up; for comparison). -/
def runPreempt {F : Type} [Add F] (sched : List Tid) (s : Sys F) : Sys F :=
  sched.foldl Sys.exec s

/-- The pair that lines 155-156 read from a store. -/
def absPair {F : Type} (o : ODrive F) : F × F :=
  (o.axis0.abs_pos_estimate, o.axis1.abs_pos_estimate)

/-- The pairs the store shows at the points where `SerialThread`, running its
statements from store `o`, gives up the processor. -/
def yieldPairs {F : Type} [Add F] : List (WAct F) → ODrive F → List (F × F)
  | [], _ => []
  | a :: rest, o =>
    (if a.keeps then [] else [absPair o]) ++ yieldPairs rest (a.store o)

/-- Shape of what `PositionControlThread` has left when it is not between its two
reads: `readBeta` occurs only right after `readAlpha`. -/
def ctlOK : List RAct → Bool
  | [] => true
  | RAct.readAlpha :: RAct.readBeta :: rest => ctlOK rest
  | RAct.yield :: rest => ctlOK rest
  | _ => false

/-- Invariant of cooperative runs, relative to the pairs `allowed`. -/
def CoopInv {F : Type} [Add F] (allowed : List (F × F)) (s : Sys F) : Prop :=
  (∀ p ∈ yieldPairs s.serial s.odrv0, p ∈ allowed) ∧
  (s.running ≠ some Tid.serial → absPair s.odrv0 ∈ allowed) ∧
  (∀ p ∈ s.reads, p ∈ allowed) ∧
  (ctlOK s.control = true ∨
    ∃ rest, s.control = RAct.readBeta :: rest ∧ ctlOK rest = true ∧
      s.running = some Tid.control ∧ s.alpha = s.odrv0.axis0.abs_pos_estimate)

set_option maxRecDepth 100000

/-! ## Store lemmas -/

theorem absConsistent_init {F : Type} [Zero F] [Add F] :
    AbsConsistent (ODrive.init : ODrive F) :=
  ⟨rfl, rfl⟩

theorem absConsistent_parse {F : Type} [Add F] (P : Decoder F) (o : ODrive F)
    (msg : List Byte) (len : Int) (h : AbsConsistent o) :
    AbsConsistent (parsePositionMsg P o msg len) := by
  unfold parsePositionMsg
  by_cases hr : (P msg len).1 = 1
  · simp only [hr, if_true]
    exact ⟨rfl, rfl⟩
  · simp only [hr, if_false]
    exact h

theorem absConsistent_parseAll {F : Type} [Add F] (P : Decoder F)
    (calls : List (List Byte × Int)) :
    ∀ o : ODrive F, AbsConsistent o → AbsConsistent (parseAll P o calls) := by
  induction calls with
  | nil => intro o h; exact h
  | cons c cs ih =>
    intro o h
    exact ih _ (absConsistent_parse P o c.1 c.2 h)

theorem serialByte_odrv0 {F : Type} [Add F] (P : Decoder F) (s : SerialState F) (c : Byte) :
    (serialByte P s c).odrv0 = s.odrv0 ∨
      ∃ msg len, (serialByte P s c).odrv0 = parsePositionMsg P s.odrv0 msg len := by
  unfold serialByte
  by_cases hc : c = NEWLINE
  · right
    by_cases hi : s.msg_idx ≥ BUFFER_SIZE
    · simp only [hc, hi, if_true]
      exact ⟨_, _, rfl⟩
    · simp only [hc, hi, if_true, if_false]
      exact ⟨_, _, rfl⟩
  · left
    by_cases hi : s.msg_idx ≥ BUFFER_SIZE
    · simp only [hc, hi, if_true, if_false]
    · simp only [hc, hi, if_false]

theorem absConsistent_ingest {F : Type} [Add F] (P : Decoder F) (bytes : List Byte) :
    ∀ s : SerialState F, AbsConsistent s.odrv0 → AbsConsistent (ingest P s bytes).odrv0 := by
  induction bytes with
  | nil => intro s h; exact h
  | cons c cs ih =>
    intro s h
    refine ih (serialByte P s c) ?_
    rcases serialByte_odrv0 P s c with h1 | ⟨msg, len, h1⟩
    · rw [h1]; exact h
    · rw [h1]; exact absConsistent_parse P _ msg len h

/-! ## Ingestion lemmas -/

theorem serialByte_plain {F : Type} [Add F] (P : Decoder F) (s : SerialState F) (c : Byte)
    (hc : c ≠ NEWLINE) (hi : s.msg_idx < 32) :
    serialByte P s c =
      { s with msg := s.msg.set s.msg_idx.toNat c
               msg_idx := s.msg_idx + 1
               trace := s.trace ++ [Event.write s.msg_idx c] } := by
  have hi2 : ¬ s.msg_idx ≥ BUFFER_SIZE := by unfold BUFFER_SIZE; omega
  simp only [serialByte, hc, hi2, if_false]

theorem serialByte_overflow {F : Type} [Add F] (P : Decoder F) (s : SerialState F) (c : Byte)
    (hc : c ≠ NEWLINE) (hi : 32 ≤ s.msg_idx) :
    serialByte P s c =
      { s with msg := s.msg.set 0 c
               msg_idx := 1
               trace := s.trace ++ [Event.reset, Event.write 0 c] } := by
  have hi2 : s.msg_idx ≥ BUFFER_SIZE := by unfold BUFFER_SIZE; omega
  simp [serialByte, hc, hi2]

theorem serialByte_newline {F : Type} [Add F] (P : Decoder F) (s : SerialState F)
    (hi : s.msg_idx < 32) :
    serialByte P s NEWLINE =
      { msg := s.msg.set s.msg_idx.toNat NEWLINE
        msg_idx := 0
        odrv0 := parsePositionMsg P s.odrv0 (s.msg.set s.msg_idx.toNat NEWLINE) (s.msg_idx + 1)
        trace := s.trace ++ [Event.write s.msg_idx NEWLINE,
          Event.decode (s.msg.set s.msg_idx.toNat NEWLINE) (s.msg_idx + 1)] } := by
  have hi2 : ¬ s.msg_idx ≥ BUFFER_SIZE := by unfold BUFFER_SIZE; omega
  simp [serialByte, hi2]

theorem serialByte_newline_overflow {F : Type} [Add F] (P : Decoder F) (s : SerialState F)
    (hi : 32 ≤ s.msg_idx) :
    serialByte P s NEWLINE =
      { msg := s.msg.set 0 NEWLINE
        msg_idx := 0
        odrv0 := parsePositionMsg P s.odrv0 (s.msg.set 0 NEWLINE) 1
        trace := s.trace ++ [Event.reset, Event.write 0 NEWLINE,
          Event.decode (s.msg.set 0 NEWLINE) 1] } := by
  have hi2 : s.msg_idx ≥ BUFFER_SIZE := by unfold BUFFER_SIZE; omega
  simp [serialByte, hi2]

theorem writesInBounds_append {t u : List Event} (ht : WritesInBounds t)
    (hu : WritesInBounds u) : WritesInBounds (t ++ u) := by
  intro i c h
  rcases List.mem_append.mp h with h | h
  · exact ht i c h
  · exact hu i c h

theorem cursorInv_serialByte {F : Type} [Add F] (P : Decoder F) (s : SerialState F) (c : Byte)
    (h : CursorInv s) : CursorInv (serialByte P s c) := by
  obtain ⟨h0, h32, hw⟩ := h
  by_cases hc : c = NEWLINE
  · subst hc
    by_cases hi : s.msg_idx < 32
    · rw [serialByte_newline P s hi]
      refine ⟨le_refl _, by norm_num, writesInBounds_append hw ?_⟩
      intro i c hm
      simp at hm
      obtain ⟨rfl, -⟩ := hm
      exact ⟨h0, by omega⟩
    · rw [serialByte_newline_overflow P s (by omega)]
      refine ⟨le_refl _, by norm_num, writesInBounds_append hw ?_⟩
      intro i c hm
      simp at hm
      obtain ⟨rfl, -⟩ := hm
      exact ⟨le_refl _, by norm_num⟩
  · by_cases hi : s.msg_idx < 32
    · rw [serialByte_plain P s c hc hi]
      refine ⟨by show 0 ≤ s.msg_idx + 1; omega, by show s.msg_idx + 1 ≤ 32; omega,
        writesInBounds_append hw ?_⟩
      intro i c hm
      simp at hm
      obtain ⟨rfl, -⟩ := hm
      exact ⟨h0, by omega⟩
    · rw [serialByte_overflow P s c hc (by omega)]
      refine ⟨by norm_num, by norm_num, writesInBounds_append hw ?_⟩
      intro i c hm
      simp at hm
      obtain ⟨rfl, -⟩ := hm
      exact ⟨le_refl _, by norm_num⟩

theorem cursorInv_ingest {F : Type} [Add F] (P : Decoder F) (bytes : List Byte) :
    ∀ s : SerialState F, CursorInv s → CursorInv (ingest P s bytes) := by
  induction bytes with
  | nil => intro s h; exact h
  | cons c cs ih => intro s h; exact ih _ (cursorInv_serialByte P s c h)

theorem cursorInv_start {F : Type} (junk : List Byte) (od : ODrive F) :
    CursorInv (SerialState.start junk od) := by
  refine ⟨le_refl _, by norm_num [SerialState.start], ?_⟩
  intro i c h
  simp [SerialState.start] at h

theorem serialByte_at_capacity {F : Type} [Add F] (P : Decoder F) (s : SerialState F) (c : Byte)
    (hi : s.msg_idx = 32) :
    ∃ rest, (serialByte P s c).trace = s.trace ++ Event.reset :: Event.write 0 c :: rest := by
  by_cases hc : c = NEWLINE
  · subst hc
    rw [serialByte_newline_overflow P s (by omega)]
    exact ⟨_, rfl⟩
  · rw [serialByte_overflow P s c hc (by omega)]
    exact ⟨[], rfl⟩

theorem decodeCalls_append (t u : List Event) :
    decodeCalls (t ++ u) = decodeCalls t ++ decodeCalls u := by
  induction t with
  | nil => rfl
  | cons e t ih => cases e <;> simp [decodeCalls, ih]

theorem decodeCalls_writesFrom (w : List Byte) : ∀ k, decodeCalls (writesFrom k w) = [] := by
  induction w with
  | nil => intro k; rfl
  | cons c cs ih => intro k; simp [writesFrom, decodeCalls, ih]

theorem resetCount_append (t u : List Event) :
    resetCount (t ++ u) = resetCount t + resetCount u := by
  simp [resetCount, List.count_append]

theorem resetCount_writesFrom (w : List Byte) : ∀ k, resetCount (writesFrom k w) = 0 := by
  induction w with
  | nil => intro k; rfl
  | cons c cs ih =>
    intro k
    have := ih (k + 1)
    simp only [resetCount] at this
    simp [writesFrom, resetCount, List.count_cons, this]

theorem take_succ_set {α : Type} (l : List α) (k : Nat) (c : α) (h : k < l.length) :
    (l.set k c).take (k + 1) = l.take k ++ [c] := by
  induction l generalizing k with
  | nil => simp at h
  | cons a l ih =>
    cases k with
    | zero => simp
    | succ k =>
      simp only [List.length_cons, Nat.add_lt_add_iff_right] at h
      simp [ih k h]

/-- Storing a terminator-free run `w` that fits behind the cursor `k`. -/
theorem ingest_fill {F : Type} [Add F] (P : Decoder F) (w : List Byte) :
    ∀ (s : SerialState F) (k : Nat), s.msg_idx = (k : Int) → k + w.length ≤ 32 →
      s.msg.length = 32 → NEWLINE ∉ w →
      (ingest P s w).msg_idx = ((k + w.length : Nat) : Int) ∧
      (ingest P s w).odrv0 = s.odrv0 ∧
      (ingest P s w).trace = s.trace ++ writesFrom k w ∧
      (ingest P s w).msg.length = 32 ∧
      (ingest P s w).msg.take (k + w.length) = s.msg.take k ++ w := by
  induction w with
  | nil =>
    intro s k hk _ hl _
    simp [ingest, writesFrom, hk, hl]
  | cons c cs ih =>
    intro s k hk hfit hl hnl
    have hc : c ≠ NEWLINE := fun h => hnl (by simp [h])
    have hcs : NEWLINE ∉ cs := fun h => hnl (List.mem_cons_of_mem _ h)
    simp only [List.length_cons] at hfit
    have hstep := serialByte_plain P s c hc (by omega)
    have hih := ih (serialByte P s c) (k + 1) (by rw [hstep]; simp [hk]) (by omega)
      (by rw [hstep]; simp [hl]) hcs
    obtain ⟨h1, h2, h3, h4, h5⟩ := hih
    have hing : ingest P s (c :: cs) = ingest P (serialByte P s c) cs := rfl
    rw [hing]
    refine ⟨?_, ?_, ?_, h4, ?_⟩
    · rw [h1]; simp only [List.length_cons]; congr 1; omega
    · rw [h2, hstep]
    · rw [h3, hstep]; simp [writesFrom, hk]
    · have e : k + (c :: cs).length = k + 1 + cs.length := by
        simp only [List.length_cons]; omega
      rw [e, h5, hstep]
      simp only [hk, Int.toNat_ofNat]
      rw [take_succ_set s.msg k c (by omega)]
      simp

/-- Storing a terminator-free run `w` behind the cursor `k` and then the terminator. -/
theorem ingest_frame {F : Type} [Add F] (P : Decoder F) (w : List Byte)
    (s : SerialState F) (k : Nat) (hk : s.msg_idx = (k : Int)) (hfit : k + w.length + 1 ≤ 32)
    (hl : s.msg.length = 32) (hnl : NEWLINE ∉ w) :
    (ingest P s (w ++ [NEWLINE])).msg_idx = 0 ∧
    (ingest P s (w ++ [NEWLINE])).msg.length = 32 ∧
    (ingest P s (w ++ [NEWLINE])).odrv0 =
      parsePositionMsg P s.odrv0 (ingest P s (w ++ [NEWLINE])).msg
        ((k + w.length + 1 : Nat) : Int) ∧
    (ingest P s (w ++ [NEWLINE])).trace =
      s.trace ++ writesFrom k w ++
        [Event.write ((k + w.length : Nat) : Int) NEWLINE,
         Event.decode (ingest P s (w ++ [NEWLINE])).msg ((k + w.length + 1 : Nat) : Int)] ∧
    (ingest P s (w ++ [NEWLINE])).msg.take (k + w.length + 1) =
      s.msg.take k ++ w ++ [NEWLINE] := by
  obtain ⟨h1, h2, h3, h4, h5⟩ := ingest_fill P w s k hk (by omega) hl hnl
  have hing : ingest P s (w ++ [NEWLINE]) = serialByte P (ingest P s w) NEWLINE := by
    simp [ingest, List.foldl_append]
  have hlt : (ingest P s w).msg_idx < 32 := by rw [h1]; omega
  rw [hing, serialByte_newline P _ hlt]
  simp only [h1, h2, h3, Int.toNat_ofNat]
  refine ⟨trivial, by simp [h4], ?_, ?_, ?_⟩
  · congr 1
  · simp
  · rw [take_succ_set _ _ _ (by omega), h5]

theorem ingest_append {F : Type} [Add F] (P : Decoder F) (s : SerialState F)
    (x y : List Byte) : ingest P s (x ++ y) = ingest P (ingest P s x) y := by
  simp [ingest, List.foldl_append]

theorem start_trace {F : Type} (junk : List Byte) (od : ODrive F) :
    (SerialState.start junk od).trace = [] := rfl

theorem start_odrv0 {F : Type} (junk : List Byte) (od : ODrive F) :
    (SerialState.start junk od).odrv0 = od := rfl

theorem start_msg {F : Type} (junk : List Byte) (od : ODrive F) :
    (SerialState.start junk od).msg = junk := rfl

/-- A terminator-free run of 33 to 64 bytes arriving at an empty buffer: the first 32
fill the buffer, the 33rd resets the cursor, the rest are stored from index 0. -/
theorem ingest_overflow_run {F : Type} [Add F] (P : Decoder F) (pre : List Byte)
    (s : SerialState F) (hk : s.msg_idx = 0) (hl : s.msg.length = 32)
    (h1 : 32 < pre.length) (h2 : pre.length ≤ 64) (hnl : NEWLINE ∉ pre) :
    (ingest P s pre).msg_idx = ((pre.length - 32 : Nat) : Int) ∧
    (ingest P s pre).odrv0 = s.odrv0 ∧
    (ingest P s pre).msg.length = 32 ∧
    (ingest P s pre).trace =
      s.trace ++ writesFrom 0 (pre.take 32) ++ [Event.reset] ++ writesFrom 0 (pre.drop 32) ∧
    (ingest P s pre).msg.take (pre.length - 32) = pre.drop 32 := by
  have hsplit : pre.take 32 ++ pre.drop 32 = pre := List.take_append_drop 32 pre
  have hta : (pre.take 32).length = 32 := by simp; omega
  have hdr : (pre.drop 32).length = pre.length - 32 := by simp
  have hnla : NEWLINE ∉ pre.take 32 := fun h => hnl (List.mem_of_mem_take h)
  have hnld : NEWLINE ∉ pre.drop 32 := fun h => hnl (List.mem_of_mem_drop h)
  generalize pre.take 32 = a at hsplit hta hnla
  generalize pre.drop 32 = r at hsplit hdr hnld
  cases r with
  | nil => simp at hdr; omega
  | cons c b =>
    have hc : c ≠ NEWLINE := fun h => hnld (by simp [h])
    have hb : NEWLINE ∉ b := fun h => hnld (List.mem_cons_of_mem _ h)
    simp only [List.length_cons] at hdr
    obtain ⟨a1, a2, a3, a4, -⟩ := ingest_fill P a s 0 (by simp [hk]) (by omega) hl hnla
    have hov := serialByte_overflow P (ingest P s a) c hc (by rw [a1]; simp [hta])
    obtain ⟨b1, b2, b3, b4, b5⟩ := ingest_fill P b (serialByte P (ingest P s a) c) 1
      (by rw [hov]; rfl) (by omega) (by rw [hov]; simp [a4]) hb
    have hing : ingest P s pre = ingest P (serialByte P (ingest P s a) c) b := by
      rw [← hsplit, ingest_append]; rfl
    rw [hing]
    refine ⟨?_, ?_, b4, ?_, ?_⟩
    · rw [b1]; congr 1; omega
    · rw [b2, hov, a2]
    · rw [b3, hov]; simp [a3, writesFrom]
    · have e : pre.length - 32 = 1 + b.length := by omega
      rw [e, b5, hov]
      have : (ingest P s a).msg ≠ [] := by
        intro h; rw [h] at a4; simp at a4
      cases hm : (ingest P s a).msg with
      | nil => exact absurd hm this
      | cons x xs => simp

/-! ## Claims -/

/-- C1: from an empty buffer, whatever bytes arrive, every write into `msg` is at an
index in `0..31`, the cursor stays within `0..32` after each byte, and a byte that
arrives while the cursor is 32 first resets the cursor and is then written at index 0. -/
theorem ingest_cursor_within_capacity {F : Type} [Add F] (P : Decoder F)
    (junk : List Byte) (od : ODrive F) (bytes : List Byte) :
    WritesInBounds (ingest P (SerialState.start junk od) bytes).trace ∧
    0 ≤ (ingest P (SerialState.start junk od) bytes).msg_idx ∧
    (ingest P (SerialState.start junk od) bytes).msg_idx ≤ 32 ∧
    ∀ c : Byte, (ingest P (SerialState.start junk od) bytes).msg_idx = 32 →
      ∃ rest, (serialByte P (ingest P (SerialState.start junk od) bytes) c).trace =
        (ingest P (SerialState.start junk od) bytes).trace ++
          Event.reset :: Event.write 0 c :: rest := by
  obtain ⟨h0, h32, hw⟩ := cursorInv_ingest P bytes _ (cursorInv_start junk od)
  exact ⟨hw, h0, h32, fun c hc => serialByte_at_capacity P _ c hc⟩

/-- Witness for C1: after 32 bytes `'A'` the cursor is 32, and the next byte `'B'`
is preceded by a reset and written at index 0. -/
theorem ingest_cursor_within_capacity_witness :
    (ingest exampleDecoder (SerialState.start (List.replicate 32 0) ODrive.init)
        (List.replicate 32 65)).msg_idx = 32 ∧
    ∃ rest, (serialByte exampleDecoder
        (ingest exampleDecoder (SerialState.start (List.replicate 32 0) ODrive.init)
          (List.replicate 32 65)) 66).trace =
      (ingest exampleDecoder (SerialState.start (List.replicate 32 0) ODrive.init)
          (List.replicate 32 65)).trace ++ Event.reset :: Event.write 0 66 :: rest :=
  ⟨by decide,
   (ingest_cursor_within_capacity exampleDecoder (List.replicate 32 0) ODrive.init
      (List.replicate 32 65)).2.2.2 66 (by decide)⟩

/-- C3: for a terminator-free `w` of at most 31 bytes, feeding `w` and then `'\n'` from
an empty buffer calls `parsePositionMsg` exactly once, on a buffer whose first
`|w|+1` bytes are `w` followed by `'\n'` and with `len = |w|+1`; afterwards the cursor
is 0, whatever the decoder answered. -/
theorem ingest_frame_decoded_once {F : Type} [Add F] (P : Decoder F)
    (junk : List Byte) (od : ODrive F) (w : List Byte)
    (hj : junk.length = 32) (hw : w.length ≤ 31) (hnl : NEWLINE ∉ w) :
    decodeCalls (ingest P (SerialState.start junk od) (w ++ [NEWLINE])).trace =
      [(w ++ [NEWLINE], (w.length : Int) + 1)] ∧
    (ingest P (SerialState.start junk od) (w ++ [NEWLINE])).msg.take (w.length + 1) =
      w ++ [NEWLINE] ∧
    (ingest P (SerialState.start junk od) (w ++ [NEWLINE])).odrv0 =
      parsePositionMsg P od (ingest P (SerialState.start junk od) (w ++ [NEWLINE])).msg
        ((w.length : Int) + 1) ∧
    (ingest P (SerialState.start junk od) (w ++ [NEWLINE])).msg_idx = 0 := by
  obtain ⟨h1, -, h3, h4, h5⟩ := ingest_frame P w (SerialState.start junk od) 0 rfl
    (by omega) hj hnl
  simp only [Nat.zero_add, start_trace, start_odrv0, start_msg, List.take_zero,
    List.nil_append] at h3 h4 h5
  have hcast : ((w.length + 1 : Nat) : Int) = (w.length : Int) + 1 := by push_cast; rfl
  rw [hcast] at h3 h4
  refine ⟨?_, ?_, h3, h1⟩
  · rw [h4]
    simp only [decodeCalls_append, decodeCalls_writesFrom, decodeCalls,
      List.append_nil, List.nil_append]
    have ht : ((w.length : Int) + 1).toNat = w.length + 1 := by omega
    rw [ht, h5]
  · exact h5

/-- Witness for C3 with `w = [7, 9]`. -/
theorem ingest_frame_decoded_once_witness :
    (List.replicate 32 (0 : Byte)).length = 32 ∧ ([7, 9] : List Byte).length ≤ 31 ∧
    NEWLINE ∉ ([7, 9] : List Byte) ∧
    decodeCalls (ingest exampleDecoder
        (SerialState.start (List.replicate 32 0) ODrive.init) ([7, 9] ++ [NEWLINE])).trace =
      [([7, 9] ++ [NEWLINE], (([7, 9] : List Byte).length : Int) + 1)] :=
  ⟨by decide, by decide, by decide,
   (ingest_frame_decoded_once exampleDecoder (List.replicate 32 0) ODrive.init [7, 9]
      (by decide) (by decide) (by decide)).1⟩

/-- C2 (as the code behaves): a terminator-free run `pre` of more than 32 bytes arriving
at an empty buffer causes exactly one reset; a frame `w '\n'` that follows at once and
still fits (`|pre| - 32 + |w| + 1 ≤ 32`) is passed to `parsePositionMsg` once, as the
`|pre| - 32` bytes stored since the reset followed by `w '\n'`, with the summed length;
the next frame `w2 '\n'` is passed as exactly its own bytes and length; no write leaves
`msg[0..31]` and no further reset occurs. -/
theorem ingest_overflow_merges_next_frame {F : Type} [Add F] (P : Decoder F)
    (junk : List Byte) (od : ODrive F) (pre w w2 : List Byte)
    (hj : junk.length = 32) (hpre : 32 < pre.length) (hnl : NEWLINE ∉ pre)
    (hw : NEWLINE ∉ w) (hfit : pre.length - 32 + w.length + 1 ≤ 32)
    (hw2 : NEWLINE ∉ w2) (hfit2 : w2.length + 1 ≤ 32) :
    resetCount (ingest P (SerialState.start junk od) pre).trace = 1 ∧
    resetCount (ingest P (SerialState.start junk od)
      (pre ++ (w ++ [NEWLINE]) ++ (w2 ++ [NEWLINE]))).trace = 1 ∧
    WritesInBounds (ingest P (SerialState.start junk od)
      (pre ++ (w ++ [NEWLINE]) ++ (w2 ++ [NEWLINE]))).trace ∧
    decodeCalls (ingest P (SerialState.start junk od)
      (pre ++ (w ++ [NEWLINE]) ++ (w2 ++ [NEWLINE]))).trace =
      [(pre.drop 32 ++ w ++ [NEWLINE], ((pre.length - 32 + w.length + 1 : Nat) : Int)),
       (w2 ++ [NEWLINE], ((w2.length + 1 : Nat) : Int))] ∧
    (ingest P (SerialState.start junk od)
      (pre ++ (w ++ [NEWLINE]) ++ (w2 ++ [NEWLINE]))).msg_idx = 0 := by
  have hinv := cursorInv_ingest P (pre ++ (w ++ [NEWLINE]) ++ (w2 ++ [NEWLINE])) _
    (cursorInv_start junk od)
  obtain ⟨a1, -, a3, a4, a5⟩ := ingest_overflow_run P pre (SerialState.start junk od) rfl hj
    hpre (by omega) hnl
  obtain ⟨b1, b2, -, b4, b5⟩ := ingest_frame P w (ingest P (SerialState.start junk od) pre)
    (pre.length - 32) a1 hfit a3 hw
  obtain ⟨c1, -, -, c4, c5⟩ := ingest_frame P w2
    (ingest P (ingest P (SerialState.start junk od) pre) (w ++ [NEWLINE])) 0 b1
    (by omega) b2 hw2
  rw [ingest_append P _ (pre ++ (w ++ [NEWLINE])) (w2 ++ [NEWLINE]),
    ingest_append P _ pre (w ++ [NEWLINE])]
  rw [ingest_append P _ (pre ++ (w ++ [NEWLINE])) (w2 ++ [NEWLINE]),
    ingest_append P _ pre (w ++ [NEWLINE])] at hinv
  simp only [Nat.zero_add, List.take_zero, List.nil_append] at c4 c5
  simp only [start_trace, List.nil_append] at a4
  have hr1 : resetCount (ingest P (SerialState.start junk od) pre).trace = 1 := by
    rw [a4]
    simp only [resetCount_append, resetCount_writesFrom]
    rfl
  refine ⟨hr1, ?_, hinv.2.2, ?_, c1⟩
  · rw [c4, b4]
    simp only [resetCount_append, resetCount_writesFrom, hr1]
    rfl
  · rw [c4, b4, a4]
    simp only [decodeCalls_append, decodeCalls_writesFrom, decodeCalls,
      List.append_nil, List.nil_append, Int.toNat_ofNat]
    rw [c5, b5, a5]
    rfl

/-- Witness for the amended C2: 33 bytes `'a'`, then the frame `7 9 '\n'`, then the
frame `5 6 '\n'`. -/
theorem ingest_overflow_merges_next_frame_witness :
    (List.replicate 32 (0 : Byte)).length = 32 ∧
    32 < (List.replicate 33 (97 : Byte)).length ∧
    NEWLINE ∉ List.replicate 33 (97 : Byte) ∧
    decodeCalls (ingest exampleDecoder (SerialState.start (List.replicate 32 0) ODrive.init)
      (List.replicate 33 97 ++ ([7, 9] ++ [NEWLINE]) ++ ([5, 6] ++ [NEWLINE]))).trace =
      [((List.replicate 33 97).drop 32 ++ [7, 9] ++ [NEWLINE],
         (((List.replicate 33 (97 : Byte)).length - 32 + ([7, 9] : List Byte).length + 1 : Nat) : Int)),
       ([5, 6] ++ [NEWLINE], ((([5, 6] : List Byte).length + 1 : Nat) : Int))] :=
  ⟨by decide, by decide, by decide,
   (ingest_overflow_merges_next_frame exampleDecoder (List.replicate 32 0) ODrive.init
      (List.replicate 33 97) [7, 9] [5, 6]
      (by decide) (by decide) (by decide) (by decide) (by decide) (by decide)
      (by decide)).2.2.2.1⟩

/-- C2 fails as stated: after 33 bytes `'a'` (one reset), the frame `7 9 '\n'`, which
alone is decoded to `(7, 9)`, reaches `parsePositionMsg` as the four bytes
`'a' 7 9 '\n'` with `len = 4`, is rejected, and leaves the store at its initial value;
and 65 terminator-free bytes cause two resets, not one. -/
theorem overflow_then_frame_not_decoded :
    resetCount (ingest exampleDecoder (SerialState.start (List.replicate 32 0) ODrive.init)
      (List.replicate 33 97)).trace = 1 ∧
    decodeCalls (ingest exampleDecoder (SerialState.start (List.replicate 32 0) ODrive.init)
      (List.replicate 33 97 ++ [7, 9, 10])).trace = [([97, 7, 9, 10], 4)] ∧
    (ingest exampleDecoder (SerialState.start (List.replicate 32 0) ODrive.init)
      (List.replicate 33 97 ++ [7, 9, 10])).odrv0 = ODrive.init ∧
    decodeCalls (ingest exampleDecoder (SerialState.start (List.replicate 32 0) ODrive.init)
      [7, 9, 10]).trace = [([7, 9, 10], 3)] ∧
    (ingest exampleDecoder (SerialState.start (List.replicate 32 0) ODrive.init)
      [7, 9, 10]).odrv0 = ⟨⟨7, 0, 7⟩, ⟨9, 0, 9⟩⟩ ∧
    resetCount (ingest exampleDecoder (SerialState.start (List.replicate 32 0) ODrive.init)
      (List.replicate 65 97)).trace = 2 := by
  refine ⟨by decide, by decide, by decide, by decide, by decide, by decide⟩

/-- C4: in the initial store, after any sequence of `parsePositionMsg` calls, and in
every state the ingestion loop reaches, both axes satisfy
`abs_pos_estimate = pos_estimate + ENCODER_OFFSET`. -/
theorem abs_pos_never_stale {F : Type} [Zero F] [Add F] (P : Decoder F)
    (calls : List (List Byte × Int)) (junk bytes : List Byte) :
    AbsConsistent (ODrive.init : ODrive F) ∧
    AbsConsistent (parseAll P (ODrive.init : ODrive F) calls) ∧
    AbsConsistent (ingest P (SerialState.start junk (ODrive.init : ODrive F)) bytes).odrv0 :=
  ⟨absConsistent_init, absConsistent_parseAll P calls _ absConsistent_init,
   absConsistent_ingest P bytes _ absConsistent_init⟩

/-- C5: when `ParseDualPosition` does not return 1, `parsePositionMsg` leaves the
store (all three fields of both axes) as it was. -/
theorem parse_rejected_store_unchanged {F : Type} [Add F] (P : Decoder F) (odrv0 : ODrive F)
    (msg : List Byte) (len : Int) (h : (P msg len).1 ≠ 1) :
    parsePositionMsg P odrv0 msg len = odrv0 := by
  simp [parsePositionMsg, h]

/-- Witness for C5: a two-byte frame is rejected by the stand-in decoder. -/
theorem parse_rejected_store_unchanged_witness :
    (exampleDecoder [7, 10] 2).1 ≠ 1 ∧
    parsePositionMsg exampleDecoder ⟨⟨3, 1, 4⟩, ⟨5, 2, 7⟩⟩ [7, 10] 2 = ⟨⟨3, 1, 4⟩, ⟨5, 2, 7⟩⟩ :=
  ⟨by decide,
   parse_rejected_store_unchanged exampleDecoder ⟨⟨3, 1, 4⟩, ⟨5, 2, 7⟩⟩ [7, 10] 2 (by decide)⟩

/-- C6: when `ParseDualPosition` returns 1 with outputs `(m0, m1)`, the store read
after `parsePositionMsg` gives `axis0.pos_estimate = m0`, `axis1.pos_estimate = m1`. -/
theorem parse_accepted_store_roundtrip {F : Type} [Add F] (P : Decoder F) (odrv0 : ODrive F)
    (msg : List Byte) (len : Int) (m0 m1 : F) (h : P msg len = (1, m0, m1)) :
    (parsePositionMsg P odrv0 msg len).axis0.pos_estimate = m0 ∧
    (parsePositionMsg P odrv0 msg len).axis1.pos_estimate = m1 := by
  simp [parsePositionMsg, h]

/-- Witness for C6: the frame `7 9 '\n'` is accepted with outputs `(7, 9)`. -/
theorem parse_accepted_store_roundtrip_witness :
    exampleDecoder [7, 9, 10] 3 = (1, 7, 9) ∧
    (parsePositionMsg exampleDecoder ⟨⟨3, 1, 4⟩, ⟨5, 2, 7⟩⟩ [7, 9, 10] 3).axis0.pos_estimate = 7 ∧
    (parsePositionMsg exampleDecoder ⟨⟨3, 1, 4⟩, ⟨5, 2, 7⟩⟩ [7, 9, 10] 3).axis1.pos_estimate = 9 :=
  ⟨by decide,
   parse_accepted_store_roundtrip exampleDecoder ⟨⟨3, 1, 4⟩, ⟨5, 2, 7⟩⟩ [7, 9, 10] 3 7 9
     (by decide)⟩

/-- C7: one pass of the control loop computes, in exact arithmetic,
`theta = (alpha + beta)/2`, `gamma = (beta - alpha)/2`, the P+D terms with zero
set-points and a zero velocity factor, and `tau_alpha = 0.5*tau_theta - 0.5*tau_gamma`,
`tau_beta = 0.5*tau_theta + 0.5*tau_gamma`; with `alpha = 2`, `beta = 4`, unit `Kp` and
zero `Kd` this gives `theta = 3`, `gamma = 1`, `tau_theta = -3`, `tau_gamma = -1`,
`tau_alpha = -1`, `tau_beta = -2`. -/
theorem control_cycle_formulas (odrv0 : ODrive ℚ) (leg0 : LegGain) :
    (positionControlCycle odrv0 leg0).alpha = odrv0.axis0.abs_pos_estimate ∧
    (positionControlCycle odrv0 leg0).beta = odrv0.axis1.abs_pos_estimate ∧
    (positionControlCycle odrv0 leg0).theta =
      ((positionControlCycle odrv0 leg0).alpha + (positionControlCycle odrv0 leg0).beta) / 2 ∧
    (positionControlCycle odrv0 leg0).gamma =
      ((positionControlCycle odrv0 leg0).beta - (positionControlCycle odrv0 leg0).alpha) / 2 ∧
    (positionControlCycle odrv0 leg0).theta_sp = 0 ∧
    (positionControlCycle odrv0 leg0).gamma_sp = 0 ∧
    (positionControlCycle odrv0 leg0).tau_theta =
      leg0.Kp_theta * ((positionControlCycle odrv0 leg0).theta_sp -
        (positionControlCycle odrv0 leg0).theta) + leg0.Kd_theta * 0 ∧
    (positionControlCycle odrv0 leg0).tau_gamma =
      leg0.Kp_gamma * ((positionControlCycle odrv0 leg0).gamma_sp -
        (positionControlCycle odrv0 leg0).gamma) + leg0.Kd_gamma * 0 ∧
    (positionControlCycle odrv0 leg0).tau_alpha =
      0.5 * (positionControlCycle odrv0 leg0).tau_theta -
        0.5 * (positionControlCycle odrv0 leg0).tau_gamma ∧
    (positionControlCycle odrv0 leg0).tau_beta =
      0.5 * (positionControlCycle odrv0 leg0).tau_theta +
        0.5 * (positionControlCycle odrv0 leg0).tau_gamma ∧
    (positionControlCycle ⟨⟨2, 0, 2⟩, ⟨4, 0, 4⟩⟩ ⟨1, 0, 1, 0⟩).theta = 3 ∧
    (positionControlCycle ⟨⟨2, 0, 2⟩, ⟨4, 0, 4⟩⟩ ⟨1, 0, 1, 0⟩).gamma = 1 ∧
    (positionControlCycle ⟨⟨2, 0, 2⟩, ⟨4, 0, 4⟩⟩ ⟨1, 0, 1, 0⟩).tau_theta = -3 ∧
    (positionControlCycle ⟨⟨2, 0, 2⟩, ⟨4, 0, 4⟩⟩ ⟨1, 0, 1, 0⟩).tau_gamma = -1 ∧
    (positionControlCycle ⟨⟨2, 0, 2⟩, ⟨4, 0, 4⟩⟩ ⟨1, 0, 1, 0⟩).tau_alpha = -1 ∧
    (positionControlCycle ⟨⟨2, 0, 2⟩, ⟨4, 0, 4⟩⟩ ⟨1, 0, 1, 0⟩).tau_beta = -2 := by
  refine ⟨rfl, rfl, ?_, ?_, rfl, rfl, rfl, rfl, ?_, ?_, ?_, ?_, ?_, ?_, ?_, ?_⟩
  · simp only [positionControlCycle, legTransform]; norm_num; ring
  · simp only [positionControlCycle, legTransform]; norm_num; ring
  · simp only [positionControlCycle, legInverse]; ring
  · simp only [positionControlCycle, legInverse]; ring
  all_goals (simp only [positionControlCycle, legTransform, legInverse]; norm_num)

/-- C9 fails as stated: at `(alpha, beta) = (2, 4)` the transform gives `(3, 1)` and the
map of lines 175-176 sends that to `(1, 2)`, not back to `(2, 4)`. -/
theorem inverse_of_transform_not_identity :
    legTransform 2 4 = (3, 1) ∧
    legInverse (legTransform 2 4).1 (legTransform 2 4).2 = (1, 2) ∧
    legInverse (legTransform 2 4).1 (legTransform 2 4).2 ≠ (2, 4) := by
  have h1 : legTransform 2 4 = (3, 1) := by
    simp only [legTransform]; norm_num
  have h2 : legInverse (legTransform 2 4).1 (legTransform 2 4).2 = (1, 2) := by
    rw [h1]; simp only [legInverse]; norm_num
  refine ⟨h1, h2, ?_⟩
  rw [h2]; norm_num

/-- C9 (as the code behaves): over exact arithmetic, the map of lines 175-176 applied to
the result of the kinematic transform of `(alpha, beta)` returns `(alpha/2, beta/2)`. -/
theorem inverse_of_transform_halves (alpha beta : ℚ) :
    legInverse (legTransform alpha beta).1 (legTransform alpha beta).2 =
      (alpha / 2, beta / 2) := by
  simp only [legInverse, legTransform, Prod.mk.injEq]
  constructor <;> norm_num <;> ring

/-! ## Scheduling lemmas -/

theorem coopInv_exec_serial {F : Type} [Add F] (allowed : List (F × F)) (s : Sys F)
    (hrun : s.running ≠ some Tid.control) (h : CoopInv allowed s) :
    CoopInv allowed (s.exec Tid.serial) := by
  obtain ⟨h1, h2, h3, h4⟩ := h
  have h4ok : ctlOK s.control = true := by
    rcases h4 with h4 | ⟨rest, -, -, hr, -⟩
    · exact h4
    · exact absurd hr hrun
  cases hs : s.serial with
  | nil =>
    have : s.exec Tid.serial = s := by simp [Sys.exec, hs]
    rw [this]
    exact ⟨h1, h2, h3, Or.inl h4ok⟩
  | cons a rest =>
    rw [hs] at h1
    have he : s.exec Tid.serial =
        { s with odrv0 := a.store s.odrv0, serial := rest
                 running := if a.keeps then some Tid.serial else none } := by
      simp [Sys.exec, hs]
    rw [he]
    refine ⟨?_, ?_, h3, Or.inl h4ok⟩
    · intro p hp
      exact h1 p (by simp only [yieldPairs]; exact List.mem_append_right _ hp)
    · intro hne
      cases hk : a.keeps with
      | true => simp [hk] at hne
      | false =>
        have hst : a.store s.odrv0 = s.odrv0 := by
          cases a <;> simp [WAct.keeps] at hk
          rfl
        show absPair (a.store s.odrv0) ∈ allowed
        rw [hst]
        exact h1 _ (by simp [yieldPairs, hk])

theorem coopInv_exec_control {F : Type} [Add F] (allowed : List (F × F)) (s : Sys F)
    (hrun : s.running ≠ some Tid.serial) (h : CoopInv allowed s) :
    CoopInv allowed (s.exec Tid.control) := by
  obtain ⟨h1, h2, h3, h4⟩ := h
  have hpair := h2 hrun
  rcases h4 with h4 | ⟨rest, hc, hok, -, hal⟩
  · cases hc : s.control with
    | nil =>
      have : s.exec Tid.control = s := by simp [Sys.exec, hc]
      rw [this]
      exact ⟨h1, h2, h3, Or.inl h4⟩
    | cons a rest =>
      rw [hc] at h4
      cases a with
      | readAlpha =>
        have he : s.exec Tid.control =
            { s with alpha := s.odrv0.axis0.abs_pos_estimate, control := rest
                     running := some Tid.control } := by
          simp [Sys.exec, hc]
        rw [he]
        refine ⟨h1, fun _ => hpair, h3, Or.inr ?_⟩
        cases rest with
        | nil => simp [ctlOK] at h4
        | cons b rest2 =>
          cases b with
          | readBeta => exact ⟨rest2, rfl, by simpa [ctlOK] using h4, rfl, rfl⟩
          | readAlpha => simp [ctlOK] at h4
          | yield => simp [ctlOK] at h4
      | readBeta => simp [ctlOK] at h4
      | yield =>
        have he : s.exec Tid.control = { s with control := rest, running := none } := by
          simp [Sys.exec, hc]
        rw [he]
        exact ⟨h1, fun _ => hpair, h3, Or.inl (by simpa [ctlOK] using h4)⟩
  · have he : s.exec Tid.control =
        { s with reads := s.reads ++ [(s.alpha, s.odrv0.axis1.abs_pos_estimate)]
                 control := rest, running := some Tid.control } := by
      simp [Sys.exec, hc]
    rw [he]
    refine ⟨h1, fun _ => hpair, ?_, Or.inl hok⟩
    intro p hp
    rcases List.mem_append.mp hp with hp | hp
    · exact h3 p hp
    · simp only [List.mem_singleton] at hp
      rw [hp, hal]
      exact hpair

theorem coopInv_coopStep {F : Type} [Add F] (allowed : List (F × F)) (s : Sys F) (t : Tid)
    (h : CoopInv allowed s) : CoopInv allowed (coopStep s t) := by
  unfold coopStep
  cases hr : s.running with
  | none =>
    cases t with
    | serial => exact coopInv_exec_serial allowed s (by simp [hr]) h
    | control => exact coopInv_exec_control allowed s (by simp [hr]) h
  | some u =>
    cases u with
    | serial => exact coopInv_exec_serial allowed s (by simp [hr]) h
    | control => exact coopInv_exec_control allowed s (by simp [hr]) h

theorem coopInv_runCoop {F : Type} [Add F] (allowed : List (F × F)) (sched : List Tid) :
    ∀ s : Sys F, CoopInv allowed s → CoopInv allowed (runCoop sched s) := by
  induction sched with
  | nil => intro s h; exact h
  | cons t ts ih => intro s h; exact ih _ (coopInv_coopStep allowed s t h)

theorem ctlOK_controlActs (n : Nat) : ctlOK (controlActs n) = true := by
  induction n with
  | zero => rfl
  | succ n ih => simpa [controlActs, ctlOK] using ih

theorem coopInv_start {F : Type} [Add F] (o : ODrive F) (a0 : F) (prog : List (WAct F))
    (n : Nat) :
    CoopInv (absPair o :: yieldPairs prog o) (Sys.start o a0 prog (controlActs n)) := by
  refine ⟨?_, ?_, ?_, Or.inl (ctlOK_controlActs n)⟩
  · intro p hp; exact List.mem_cons_of_mem _ hp
  · intro _; exact List.mem_cons_self _ _
  · intro p hp; simp [Sys.start] at hp

theorem yieldPairs_append {F : Type} [Add F] (l₁ l₂ : List (WAct F)) :
    ∀ o : ODrive F, yieldPairs (l₁ ++ l₂) o =
      yieldPairs l₁ o ++ yieldPairs l₂ (l₁.foldl (fun o a => a.store o) o) := by
  induction l₁ with
  | nil => intro o; rfl
  | cons a l ih => intro o; simp [yieldPairs, ih]

/-- The statements of one `parsePositionMsg` call, run to the end, act on the store
as `parsePositionMsg` does. -/
theorem parseActs_store {F : Type} [Add F] (P : Decoder F) (o : ODrive F)
    (msg : List Byte) (len : Int) :
    (parseActs P msg len).foldl (fun o a => a.store o) o = parsePositionMsg P o msg len := by
  unfold parseActs parsePositionMsg
  by_cases hr : (P msg len).1 = 1
  · simp only [hr, if_true]; rfl
  · simp only [hr, if_false]; rfl

theorem yieldPairs_parseActs {F : Type} [Add F] (P : Decoder F) (o : ODrive F)
    (msg : List Byte) (len : Int) :
    ∀ p ∈ yieldPairs (parseActs P msg len) o,
      p = absPair o ∨ p = absPair (parsePositionMsg P o msg len) := by
  intro p hp
  unfold parseActs at hp
  unfold parsePositionMsg
  by_cases hr : (P msg len).1 = 1
  · simp only [hr, if_true] at hp ⊢
    simp [yieldPairs, WAct.keeps, WAct.store] at hp
    rcases hp with hp | hp
    · exact Or.inl hp
    · right; rw [hp]
  · simp only [hr, if_false] at hp ⊢
    simp [yieldPairs, WAct.keeps, WAct.store] at hp
    exact Or.inl hp

/-- Every pair the store shows where `SerialThread` gives up the processor is the pair
of the store after some number of complete `parsePositionMsg` calls. -/
theorem yieldPairs_serialActs {F : Type} [Add F] (P : Decoder F) (evs : List SerialEvent) :
    ∀ (o : ODrive F), ∀ p ∈ absPair o :: yieldPairs (serialActs P evs) o,
      ∃ k, k ≤ (callsOf evs).length ∧ p = absPair (parseAll P o ((callsOf evs).take k)) := by
  induction evs with
  | nil =>
    intro o p hp
    simp [serialActs, yieldPairs] at hp
    exact ⟨0, Nat.zero_le _, by simp [hp, parseAll]⟩
  | cons e es ih =>
    intro o p hp
    cases e with
    | pollEnd =>
      simp only [serialActs, callsOf, yieldPairs, WAct.keeps, WAct.store] at hp ⊢
      exact ih o p (by simpa using hp)
    | parse msg len =>
      simp only [serialActs, callsOf, yieldPairs_append, parseActs_store] at hp ⊢
      rcases List.mem_cons.mp hp with hp | hp
      · exact ⟨0, Nat.zero_le _, by simp [hp, parseAll]⟩
      · have hstep : p = absPair o ∨
            p ∈ absPair (parsePositionMsg P o msg len) ::
              yieldPairs (serialActs P es) (parsePositionMsg P o msg len) := by
          rcases List.mem_append.mp hp with hp | hp
          · rcases yieldPairs_parseActs P o msg len p hp with h | h
            · exact Or.inl h
            · right; rw [h]; exact List.mem_cons_self _ _
          · exact Or.inr (List.mem_cons_of_mem _ hp)
        rcases hstep with h | h
        · exact ⟨0, Nat.zero_le _, by simp [h, parseAll]⟩
        · obtain ⟨k, hk, hpk⟩ := ih _ p h
          exact ⟨k + 1, by simp only [List.length_cons]; omega, by
            rw [hpk]; simp [parseAll]⟩

/-- C10: under the cooperative scheduler, for every schedule, every decoder, every run
of `SerialThread` events and any number of control cycles, each pair `(alpha, beta)`
read in a control cycle is the pair held by the store after some number `k` of complete
`parsePositionMsg` calls: no read pairs one joint of a new frame with the other joint
of the previous one. -/
theorem cooperative_reads_all_or_nothing {F : Type} [Add F] (P : Decoder F) (o : ODrive F)
    (a0 : F) (evs : List SerialEvent) (n : Nat) (sched : List Tid) :
    ∀ p ∈ (runCoop sched (Sys.start o a0 (serialActs P evs) (controlActs n))).reads,
      ∃ k, k ≤ (callsOf evs).length ∧
        p = absPair (parseAll P o ((callsOf evs).take k)) := by
  intro p hp
  have hinv := coopInv_runCoop (absPair o :: yieldPairs (serialActs P evs) o) sched _
    (coopInv_start o a0 (serialActs P evs) n)
  exact yieldPairs_serialActs P evs o p (hinv.2.2.1 p hp)

/-- Witness for C10: one control cycle, then the frame `7 9 '\n'` decoded and stored,
then a second control cycle; the second cycle reads `(7, 9)`. -/
theorem cooperative_reads_all_or_nothing_witness :
    ((7, 9) : Int × Int) ∈
      (runCoop
        [Tid.control, Tid.control, Tid.control, Tid.control,
         Tid.serial, Tid.serial, Tid.serial, Tid.serial, Tid.serial, Tid.serial, Tid.serial,
         Tid.control, Tid.control]
        (Sys.start ODrive.init 0
          (serialActs exampleDecoder [SerialEvent.parse [7, 9, 10] 3, SerialEvent.pollEnd])
          (controlActs 2))).reads ∧
    ∃ k, k ≤ (callsOf [SerialEvent.parse [7, 9, 10] 3, SerialEvent.pollEnd]).length ∧
      ((7, 9) : Int × Int) = absPair (parseAll exampleDecoder ODrive.init
        ((callsOf [SerialEvent.parse [7, 9, 10] 3, SerialEvent.pollEnd]).take k)) :=
  ⟨by decide,
   cooperative_reads_all_or_nothing exampleDecoder ODrive.init 0
     [SerialEvent.parse [7, 9, 10] 3, SerialEvent.pollEnd] 2
     [Tid.control, Tid.control, Tid.control, Tid.control,
      Tid.serial, Tid.serial, Tid.serial, Tid.serial, Tid.serial, Tid.serial, Tid.serial,
      Tid.control, Tid.control]
     (7, 9) (by decide)⟩

/-- For comparison: were the scheduler allowed to switch threads between lines 288 and
289, the control cycle would read `(7, 0)`, which is the pair of neither the store
before the frame, `(0, 0)`, nor the store after it, `(7, 9)`; under the cooperative
scheduler the same schedule yields no such read. -/
theorem preemptive_switch_tears_read :
    (runPreempt [Tid.serial, Tid.serial, Tid.serial, Tid.serial, Tid.control, Tid.control]
      (Sys.start ODrive.init 0
        (serialActs exampleDecoder [SerialEvent.parse [7, 9, 10] 3, SerialEvent.pollEnd])
        (controlActs 1))).reads = [((7, 0) : Int × Int)] ∧
    absPair (parseAll exampleDecoder ODrive.init
      ((callsOf [SerialEvent.parse [7, 9, 10] 3, SerialEvent.pollEnd]).take 0)) = (0, 0) ∧
    absPair (parseAll exampleDecoder ODrive.init
      ((callsOf [SerialEvent.parse [7, 9, 10] 3, SerialEvent.pollEnd]).take 1)) = (7, 9) ∧
    (runCoop [Tid.serial, Tid.serial, Tid.serial, Tid.serial, Tid.control, Tid.control]
      (Sys.start ODrive.init 0
        (serialActs exampleDecoder [SerialEvent.parse [7, 9, 10] 3, SerialEvent.pollEnd])
        (controlActs 1))).reads = [] := by
  refine ⟨by decide, by decide, by decide, by decide⟩

end Doggo
